import Mathlib

/-!
Shallow embedding of the realtime poll backend (an Express + Mongoose
service).  The embedding covers the poll data model (`models/Poll.js`),
the create-poll route, and the two variants of the vote route found in
the repository: the one-shot variant (IP recorded in the poll document's
`votedIPs` array, duplicate IPs rejected with 403) and the rate-limited
variant (in-memory `voteTimestamps` map, repeat votes inside a 60 s
window rejected with 429), together with the rate-limit garbage
collection sweep.  MongoDB is modelled as a list of poll documents;
`poll.save()` writes the in-memory document back to the store and may
fail (the route's catch block answers 500).  The `createdAt` field of
the schema is never read by any handler and is omitted.
-/

/-- One selectable option of a poll (`optionSchema`): display text and a
vote counter defaulting to 0. -/
structure PollOption where
  text : String
  votes : Nat
  deriving DecidableEq, Repr

/-- A poll document (`pollSchema`): unique `pollId`, question, ordered
options, the list of IPs that have voted (one-shot variant) and the
total vote counter. -/
structure Poll where
  pollId : String
  question : String
  options : List PollOption
  votedIPs : List String
  totalVotes : Nat
  deriving DecidableEq, Repr

/-- Sum of the per-option counters of a list of options. -/
def sumVotes (l : List PollOption) : Nat :=
  (l.map PollOption.votes).sum

/-- The value read from `req.body.optionIndex`: either a number or the
undefined value (field missing from the JSON body). -/
inductive JSNum where
  | num (n : Int)
  | undefined
  deriving DecidableEq, Repr

/-- JavaScript `x < m` for the vote handler's range check: a comparison
with undefined evaluates via NaN and is false. -/
def jsLt : JSNum → Int → Bool
  | .num n, m => decide (n < m)
  | .undefined, _ => false

/-- JavaScript `x >= m`: a comparison with undefined is false. -/
def jsGe : JSNum → Int → Bool
  | .num n, m => decide (n ≥ m)
  | .undefined, _ => false

/-- Increment the vote counter of the option at position `i`
(`poll.options[i].votes += 1`). -/
def bumpVotes : List PollOption → Nat → List PollOption
  | [], _ => []
  | o :: rest, 0 => { o with votes := o.votes + 1 } :: rest
  | o :: rest, n + 1 => o :: bumpVotes rest n

/-- The mutation `poll.options[optionIndex].votes += 1`.  Indexing a JS
array with undefined or with an out-of-range number yields undefined,
and reading `.votes` of undefined throws a TypeError (caught by the
route's catch block); `none` models that throw. -/
def bumpAt (opts : List PollOption) (idx : JSNum) : Option (List PollOption) :=
  match idx with
  | .num n => if 0 ≤ n ∧ n.toNat < opts.length then some (bumpVotes opts n.toNat) else none
  | .undefined => none

/-- The store lookup `Poll.findOne(pollId)`: first document whose
`pollId` matches. -/
def findPoll (db : List Poll) (pid : String) : Option Poll :=
  db.find? (fun p => p.pollId == pid)

/-- The write-back `poll.save()` on an existing document: the stored
document with the same `pollId` is replaced by the updated one. -/
def savePoll : List Poll → Poll → List Poll
  | [], _ => []
  | p :: rest, q => if p.pollId = q.pollId then q :: rest else p :: savePoll rest q

/-- Outcome of a vote request, tagged with the data the route answers
with. -/
inductive VoteResult where
  | notFound
  | invalidOption
  | alreadyVoted
  | rateLimited (remainingTime : Int)
  | serverError
  | success (options : List PollOption) (totalVotes : Nat)
  deriving DecidableEq, Repr

/-- HTTP status each outcome is answered with. -/
def httpStatus : VoteResult → Nat
  | .notFound => 404
  | .invalidOption => 400
  | .alreadyVoted => 403
  | .rateLimited _ => 429
  | .serverError => 500
  | .success _ _ => 200

/-- Boolean success test on a vote outcome. -/
def VoteResult.isSuccess : VoteResult → Bool
  | .success _ _ => true
  | _ => false

/-- Payload of the `voteUpdate` broadcast: poll room, options, total. -/
abbrev Broadcast := String × List PollOption × Nat

/-- The create-poll route (`POST /api/polls`, identical in both source
variants).  Validation rejects a falsy (empty) question or fewer than 2
options; the new document starts with every counter 0 and an empty
`votedIPs`; `poll.save()` fails on a duplicate `pollId` (unique index)
or on a storage error (`saveOk = false`), leaving the store unchanged. -/
def createPoll (db : List Poll) (question : String) (options : List String)
    (pollId : String) (saveOk : Bool) : List Poll × Bool :=
  if question = "" || options.length < 2 then (db, false)
  else
    let poll : Poll :=
      { pollId := pollId, question := question
        options := options.map (fun t => { text := t, votes := 0 })
        votedIPs := [], totalVotes := 0 }
    if saveOk && !(db.any (fun p => p.pollId == pollId)) then (db ++ [poll], true)
    else (db, false)

/-- Result record of the one-shot vote route: the store afterwards, the
outcome, and the broadcast emitted (if any). -/
structure OSOutcome where
  db : List Poll
  result : VoteResult
  broadcast : Option Broadcast
  deriving DecidableEq, Repr

/-- Apply phase of the one-shot route: mutate the document
(`options[optionIndex].votes += 1; totalVotes += 1; votedIPs.push(ip)`),
then `poll.save()`; a TypeError from the indexing or a failed save is
caught and answered 500 with the store unchanged; on success the update
is broadcast to the poll's room. -/
def voteOSApply (db : List Poll) (poll : Poll) (pid : String) (optionIndex : JSNum)
    (clientIP : String) (saveOk : Bool) : OSOutcome :=
  match bumpAt poll.options optionIndex with
  | none => ⟨db, .serverError, none⟩
  | some newOpts =>
    let newPoll := { poll with
      options := newOpts
      totalVotes := poll.totalVotes + 1
      votedIPs := poll.votedIPs ++ [clientIP] }
    if saveOk then
      ⟨savePoll db newPoll, .success newOpts newPoll.totalVotes,
        some (pid, newOpts, newPoll.totalVotes)⟩
    else ⟨db, .serverError, none⟩

/-- The one-shot vote route (`POST /api/polls/:pollId/vote`, variant
with IP-based duplicate blocking): 404 if the poll is absent, 400 if
the range check rejects the index, 403 if `votedIPs` already contains
the caller's IP, otherwise apply and save. -/
def voteOneShot (db : List Poll) (pid : String) (optionIndex : JSNum)
    (clientIP : String) (saveOk : Bool) : OSOutcome :=
  match findPoll db pid with
  | none => ⟨db, .notFound, none⟩
  | some poll =>
    if jsLt optionIndex 0 || jsGe optionIndex (poll.options.length : Int) then
      ⟨db, .invalidOption, none⟩
    else if poll.votedIPs.contains clientIP then
      ⟨db, .alreadyVoted, none⟩
    else voteOSApply db poll pid optionIndex clientIP saveOk

/-- Per-poll map from client IP to the timestamp of its last recorded
vote, as an insertion-ordered association list (a JS Map). -/
abbrev IpMap := List (String × Nat)

/-- The in-memory `voteTimestamps` store: poll id to per-IP map. -/
abbrev TsMap := List (String × IpMap)

/-- Lookup in a JS Map (`m.get(k)`). -/
def alookup {α : Type} : List (String × α) → String → Option α
  | [], _ => none
  | (k', v) :: rest, k => if k' = k then some v else alookup rest k

/-- Key-presence test of a JS Map (`m.has(k)`). -/
def hasKey {α : Type} (m : List (String × α)) (k : String) : Bool :=
  m.any (fun e => e.1 == k)

/-- Update of a JS Map (`m.set(k, v)`): an existing key keeps its
position, a new key is appended. -/
def aset {α : Type} : List (String × α) → String → α → List (String × α)
  | [], k, v => [(k, v)]
  | (k', v') :: rest, k, v =>
    if k' = k then (k, v) :: rest else (k', v') :: aset rest k v

/-- Deletion from a JS Map (`m.delete(k)`). -/
def adelete {α : Type} (m : List (String × α)) (k : String) : List (String × α) :=
  m.filter (fun e => e.1 != k)

/-- The rate-limit window: 60 seconds in milliseconds. -/
def RATE_LIMIT_WINDOW : Int := 60 * 1000

/-- Ceiling division by 1000, as `Math.ceil(a / 1000)` computes on an
integer argument. -/
def ceilDiv1000 (a : Int) : Int := (a + 999).fdiv 1000

/-- The route's rate-limit test
`lastVoteTime && (now - lastVoteTime) < RATE_LIMIT_WINDOW`: an absent
entry is falsy, and so is a stored timestamp of 0, short-circuiting the
conjunction to false. -/
def rlReject (lastVoteTime : Option Nat) (now : Nat) : Bool :=
  match lastVoteTime with
  | none => false
  | some t => (t != 0) && decide ((now : Int) - t < RATE_LIMIT_WINDOW)

/-- The 429 payload `Math.ceil((RATE_LIMIT_WINDOW - (now - lastVoteTime)) / 1000)`
computed in the rejecting branch, where the entry is present. -/
def remainingSecs (lastVoteTime : Option Nat) (now : Nat) : Int :=
  match lastVoteTime with
  | some t => ceilDiv1000 (RATE_LIMIT_WINDOW - ((now : Int) - t))
  | none => 0

/-- Process state of the rate-limited variant: the poll store plus the
in-memory `voteTimestamps` map. -/
structure RLState where
  db : List Poll
  ts : TsMap
  deriving DecidableEq, Repr

/-- Result record of the rate-limited vote route. -/
structure RLOutcome where
  state : RLState
  result : VoteResult
  broadcast : Option Broadcast
  deriving DecidableEq, Repr

/-- Apply phase of the rate-limited route, entered after the timestamp
has already been recorded (`pollVotes.set(clientIP, now)` precedes the
mutation and the save in the source): mutate the document, save,
broadcast; a TypeError or failed save is answered 500 with the store
unchanged but the recorded timestamp kept. -/
def voteRLApply (db : List Poll) (ts2 : TsMap) (poll : Poll) (pid : String)
    (optionIndex : JSNum) (saveOk : Bool) : RLOutcome :=
  match bumpAt poll.options optionIndex with
  | none => ⟨⟨db, ts2⟩, .serverError, none⟩
  | some newOpts =>
    let newPoll := { poll with options := newOpts, totalVotes := poll.totalVotes + 1 }
    if saveOk then
      ⟨⟨savePoll db newPoll, ts2⟩, .success newOpts newPoll.totalVotes,
        some (pid, newOpts, newPoll.totalVotes)⟩
    else ⟨⟨db, ts2⟩, .serverError, none⟩

/-- Guard phase of the rate-limited route: ensure a per-poll map exists
(`voteTimestamps.set(pollId, new Map())` when absent), read the caller's
last timestamp, answer 429 when the rate-limit test rejects, otherwise
record `now` for the caller and proceed to the apply phase. -/
def voteRLGuard (st : RLState) (poll : Poll) (pid : String) (optionIndex : JSNum)
    (clientIP : String) (now : Nat) (saveOk : Bool) : RLOutcome :=
  let ts1 := if hasKey st.ts pid then st.ts else aset st.ts pid []
  let pollVotes := (alookup ts1 pid).getD []
  let lastVoteTime := alookup pollVotes clientIP
  if rlReject lastVoteTime now then
    ⟨⟨st.db, ts1⟩, .rateLimited (remainingSecs lastVoteTime now), none⟩
  else
    voteRLApply st.db (aset ts1 pid (aset pollVotes clientIP now)) poll pid optionIndex saveOk

/-- The rate-limited vote route (`POST /api/polls/:pollId/vote`, variant
with the in-memory timestamp map): 404 if the poll is absent, 400 if the
range check rejects the index, then the rate-limit guard. -/
def voteRateLimited (st : RLState) (pid : String) (optionIndex : JSNum)
    (clientIP : String) (now : Nat) (saveOk : Bool) : RLOutcome :=
  match findPoll st.db pid with
  | none => ⟨st, .notFound, none⟩
  | some poll =>
    if jsLt optionIndex 0 || jsGe optionIndex (poll.options.length : Int) then
      ⟨st, .invalidOption, none⟩
    else voteRLGuard st poll pid optionIndex clientIP now saveOk

/-- The rate-limit check in isolation: the decision the guard takes for
a given map state, poll, IP and time. -/
def guardCheck (ts : TsMap) (pid ip : String) (now : Nat) : Bool :=
  rlReject (alookup ((alookup ts pid).getD []) ip) now

/-- The garbage-collection sweep run every 5 minutes: delete every
per-IP entry older than twice the window, then every per-poll map left
empty. -/
def cleanupSweep (ts : TsMap) (now : Nat) : TsMap :=
  (ts.map (fun e =>
    (e.1, e.2.filter (fun q => !decide ((now : Int) - q.2 > RATE_LIMIT_WINDOW * 2)))))
    |>.filter (fun e => !e.2.isEmpty)

/-- Deletion of one (poll, IP) entry, as one step of the sweep performs
it (`ipMap.delete(ip)` inside the poll's map). -/
def deleteEntry (ts : TsMap) (pid ip : String) : TsMap :=
  ts.map (fun e => if e.1 = pid then (e.1, adelete e.2 ip) else e)

/-- An operation of the system: a create-poll request or a vote request.
The `saveOk` flag is the storage nondeterminism (whether the awaited
`poll.save()` succeeds). -/
inductive Op where
  | create (question : String) (options : List String) (pollId : String) (saveOk : Bool)
  | vote (pollId : String) (optionIndex : JSNum) (clientIP : String) (now : Nat) (saveOk : Bool)

/-- One step of the one-shot variant. -/
def stepOS (db : List Poll) : Op → List Poll
  | .create q opts pid ok => (createPoll db q opts pid ok).1
  | .vote pid idx ip _now ok => (voteOneShot db pid idx ip ok).db

/-- A run of the one-shot variant from the empty store. -/
def runOS (ops : List Op) : List Poll := ops.foldl stepOS []

/-- One step of the rate-limited variant. -/
def stepRL (st : RLState) : Op → RLState
  | .create q opts pid ok => ⟨(createPoll st.db q opts pid ok).1, st.ts⟩
  | .vote pid idx ip now ok => (voteRateLimited st pid idx ip now ok).state

/-- A run of the rate-limited variant from the empty store and empty
timestamp map. -/
def runRL (ops : List Op) : RLState := ops.foldl stepRL ⟨[], []⟩

/-- Interleaving of two concurrent vote handlers on the same poll in
which both `await Poll.findOne(...)` complete before either
`await poll.save()` runs (Node may schedule the second handler between
the two awaits of the first).  Each handler increments the option of the
document it read and writes that document back, exactly as the route's
apply phase does; with two distinct fresh identities both pass the
abuse guard. -/
def twoInterleavedVotes (db : List Poll) (pid : String) (i1 i2 : Nat) : List Poll :=
  match findPoll db pid with
  | none => db
  | some poll =>
    let doc1 := { poll with options := bumpVotes poll.options i1, totalVotes := poll.totalVotes + 1 }
    let doc2 := { poll with options := bumpVotes poll.options i2, totalVotes := poll.totalVotes + 1 }
    savePoll (savePoll db doc1) doc2

/-- The document as the one-shot route has mutated it just before
`poll.save()`. -/
def updatedPollOS (poll : Poll) (newOpts : List PollOption) (ip : String) : Poll :=
  { poll with options := newOpts, totalVotes := poll.totalVotes + 1,
              votedIPs := poll.votedIPs ++ [ip] }

/-- The document as the rate-limited route has mutated it just before
`poll.save()`. -/
def updatedPollRL (poll : Poll) (newOpts : List PollOption) : Poll :=
  { poll with options := newOpts, totalVotes := poll.totalVotes + 1 }

/-- Every stored poll has its total equal to the sum of its option
counters. -/
def storeInv (db : List Poll) : Prop :=
  ∀ p ∈ db, p.totalVotes = sumVotes p.options

/-- Every stored poll of the one-shot variant has exactly one recorded
IP per counted vote and no duplicate IPs. -/
def osInv (db : List Poll) : Prop :=
  ∀ p ∈ db, p.votedIPs.length = p.totalVotes ∧ p.votedIPs.Nodup

/-- The store records identity `ip` as having voted on poll `pid`
(one-shot variant). -/
def votedIn (db : List Poll) (pid ip : String) : Prop :=
  ∃ p, findPoll db pid = some p ∧ ip ∈ p.votedIPs

/-- A concrete two-option poll used by the concrete-instance theorems. -/
def pollAB : Poll := ⟨"p1", "q", [⟨"A", 0⟩, ⟨"B", 0⟩], [], 0⟩

/-! ### Helper lemmas about votes sums, the store and the JS maps -/

theorem sumVotes_cons (o : PollOption) (l : List PollOption) :
    sumVotes (o :: l) = o.votes + sumVotes l := by
  simp [sumVotes]

theorem sumVotes_map_zero (l : List String) :
    sumVotes (l.map (fun t => ({ text := t, votes := 0 } : PollOption))) = 0 := by
  induction l with
  | nil => rfl
  | cons t rest ih => simpa [sumVotes_cons] using ih

theorem bumpVotes_sum (l : List PollOption) (i : Nat) (h : i < l.length) :
    sumVotes (bumpVotes l i) = sumVotes l + 1 := by
  induction l generalizing i with
  | nil => simp at h
  | cons o rest ih =>
    cases i with
    | zero => simp [bumpVotes, sumVotes_cons]; omega
    | succ n =>
      have hn : n < rest.length := by simpa using h
      simp [bumpVotes, sumVotes_cons, ih n hn]
      omega

theorem bumpAt_some {opts newOpts : List PollOption} {idx : JSNum}
    (h : bumpAt opts idx = some newOpts) :
    sumVotes newOpts = sumVotes opts + 1 := by
  cases idx with
  | undefined => simp [bumpAt] at h
  | num n =>
    simp only [bumpAt] at h
    split at h
    · rename_i hc
      cases h
      exact bumpVotes_sum _ _ hc.2
    · cases h

theorem mem_savePoll {db : List Poll} {q p : Poll} (h : p ∈ savePoll db q) :
    p = q ∨ p ∈ db := by
  induction db with
  | nil => simp [savePoll] at h
  | cons r rest ih =>
    simp only [savePoll] at h
    split at h
    · rcases List.mem_cons.mp h with h1 | h1
      · exact Or.inl h1
      · exact Or.inr (List.mem_cons_of_mem _ h1)
    · rcases List.mem_cons.mp h with h1 | h1
      · exact Or.inr (h1 ▸ List.mem_cons_self _ _)
      · rcases ih h1 with h2 | h2
        · exact Or.inl h2
        · exact Or.inr (List.mem_cons_of_mem _ h2)

theorem findPoll_mem {db : List Poll} {pid : String} {p : Poll}
    (h : findPoll db pid = some p) : p ∈ db :=
  List.mem_of_find?_eq_some h

theorem findPoll_pollId {db : List Poll} {pid : String} {p : Poll}
    (h : findPoll db pid = some p) : p.pollId = pid := by
  simpa using List.find?_some h

theorem findPoll_savePoll {db : List Poll} {pid : String} {p : Poll} (q : Poll)
    (h : findPoll db pid = some p) :
    findPoll (savePoll db q) pid = some (if q.pollId = pid then q else p) := by
  induction db with
  | nil => simp [findPoll] at h
  | cons r rest ih =>
    simp only [savePoll]
    by_cases hrq : r.pollId = q.pollId
    · rw [if_pos hrq]
      by_cases hq : q.pollId = pid
      · rw [if_pos hq]
        unfold findPoll
        rw [List.find?_cons_of_pos _ (by simp [hq])]
      · rw [if_neg hq]
        have hr : ¬(r.pollId = pid) := by rw [hrq]; exact hq
        unfold findPoll at h ⊢
        rw [List.find?_cons_of_neg _ (by simp [hq])]
        rwa [List.find?_cons_of_neg _ (by simp [hr])] at h
    · rw [if_neg hrq]
      by_cases hr : r.pollId = pid
      · have hp : p = r := by
          unfold findPoll at h
          rw [List.find?_cons_of_pos _ (by simp [hr])] at h
          exact (Option.some_inj.mp h).symm
        have hq : ¬(q.pollId = pid) := fun hh => hrq (by rw [hr, hh])
        rw [if_neg hq]
        unfold findPoll
        rw [List.find?_cons_of_pos _ (by simp [hr]), hp]
      · unfold findPoll at h ⊢
        rw [List.find?_cons_of_neg _ (by simp [hr])] at h
        rw [List.find?_cons_of_neg _ (by simp [hr])]
        exact ih h

theorem findPoll_append {db : List Poll} {pid : String} {p : Poll} (l : List Poll)
    (h : findPoll db pid = some p) : findPoll (db ++ l) pid = some p := by
  unfold findPoll at h ⊢
  rw [List.find?_append, h]
  rfl

theorem alookup_aset_self {α : Type} (m : List (String × α)) (k : String) (v : α) :
    alookup (aset m k v) k = some v := by
  induction m with
  | nil => simp [aset, alookup]
  | cons e rest ih =>
    obtain ⟨k', v'⟩ := e
    by_cases h : k' = k
    · simp [aset, h, alookup]
    · simp [aset, h, alookup, ih]

theorem hasKey_false_alookup {α : Type} (m : List (String × α)) (k : String)
    (h : hasKey m k = false) : alookup m k = none := by
  induction m with
  | nil => rfl
  | cons e rest ih =>
    obtain ⟨k', v'⟩ := e
    simp only [hasKey, List.any_cons, Bool.or_eq_false_iff] at h
    have h1 : ¬(k' = k) := by simpa using h.1
    simp only [alookup, if_neg h1]
    exact ih (by simpa [hasKey] using h.2)

theorem alookup_ensure (ts : TsMap) (pid : String) :
    (alookup (if hasKey ts pid then ts else aset ts pid []) pid).getD []
      = (alookup ts pid).getD [] := by
  by_cases h : hasKey ts pid = true
  · simp [h]
  · have h0 : hasKey ts pid = false := by simpa using h
    have h1 : alookup ts pid = none := hasKey_false_alookup ts pid h0
    simp [h0, h1, alookup_aset_self]

theorem alookup_adelete {α : Type} (m : List (String × α)) (k k' : String) :
    alookup (adelete m k) k' = if k' = k then none else alookup m k' := by
  induction m with
  | nil =>
    simp only [adelete, List.filter_nil, alookup]
    split <;> rfl
  | cons e rest ih =>
    obtain ⟨k1, v1⟩ := e
    by_cases h1 : k1 = k
    · have hf : ((k1, v1).1 != k) = false := by simp [h1]
      by_cases h2 : k' = k
      · simp [adelete, List.filter_cons, hf, h2] at *
        simpa [h2] using ih
      · have h3 : ¬(k1 = k') := by rw [h1]; exact fun hh => h2 hh.symm
        simp only [adelete, List.filter_cons, hf] at *
        simp only [alookup, if_neg h3, if_neg h2] at *
        simpa [h2] using ih
    · have hf : ((k1, v1).1 != k) = true := by simp [h1]
      by_cases h2 : k1 = k'
      · have h3 : ¬(k' = k) := by rw [← h2]; exact fun hh => h1 hh
        simp only [adelete, List.filter_cons, hf, if_neg h3] at *
        simp [alookup, h2]
      · simp only [adelete, List.filter_cons, hf] at *
        simp only [alookup, if_neg h2]
        exact ih

theorem alookup_cons {α : Type} (k1 : String) (v1 : α) (rest : List (String × α))
    (k : String) :
    alookup ((k1, v1) :: rest) k = if k1 = k then some v1 else alookup rest k := rfl

theorem alookup_deleteEntry (ts : TsMap) (pid ip pid' : String) :
    alookup (deleteEntry ts pid ip) pid'
      = if pid' = pid then (alookup ts pid').map (fun m => adelete m ip)
        else alookup ts pid' := by
  induction ts with
  | nil =>
    simp only [deleteEntry, List.map_nil, alookup]
    split <;> rfl
  | cons e rest ih =>
    obtain ⟨k1, m1⟩ := e
    simp only [deleteEntry, List.map_cons] at ih ⊢
    by_cases h1 : k1 = pid
    · rw [if_pos (show (k1, m1).1 = pid from h1)]
      by_cases h2 : k1 = pid'
      · have h3 : pid' = pid := by rw [← h2, h1]
        rw [alookup_cons, if_pos h2, if_pos h3, alookup_cons, if_pos h2]
        rfl
      · rw [alookup_cons, if_neg h2, ih]
        by_cases h3 : pid' = pid
        · exact absurd (h3 ▸ h1 : k1 = pid') h2
        · rw [if_neg h3, if_neg h3, alookup_cons, if_neg h2]
    · rw [if_neg (show ¬((k1, m1).1 = pid) from h1)]
      by_cases h2 : k1 = pid'
      · have h3 : ¬(pid' = pid) := fun hh => h1 (by rw [h2, hh])
        rw [alookup_cons, if_pos h2, if_neg h3, alookup_cons, if_pos h2]
      · rw [alookup_cons, if_neg h2, ih]
        rw [alookup_cons, if_neg h2]

theorem ceilDiv1000_pos (a : Int) (h : 1 ≤ a) : 0 < ceilDiv1000 a := by
  unfold ceilDiv1000
  rw [Int.fdiv_eq_ediv _ (by norm_num)]
  omega

/-- Generic preservation of a predicate along a fold over operations. -/
theorem foldl_pres {σ : Type} (P : σ → Prop) (f : σ → Op → σ)
    (hf : ∀ s op, P s → P (f s op)) (ops : List Op) (s : σ) (hs : P s) :
    P (ops.foldl f s) := by
  induction ops generalizing s with
  | nil => exact hs
  | cons op rest ih => exact ih _ (hf _ _ hs)

/-! ### Shape lemmas for the three routes -/

theorem createPoll_db_cases (db : List Poll) (q : String) (opts : List String)
    (pid : String) (ok : Bool) :
    (createPoll db q opts pid ok).1 = db ∨
    (createPoll db q opts pid ok).1
      = db ++ [{ pollId := pid, question := q,
                 options := opts.map (fun t => { text := t, votes := 0 }),
                 votedIPs := [], totalVotes := 0 }] := by
  unfold createPoll
  split
  · left; rfl
  · dsimp only
    split
    · right; rfl
    · left; rfl

theorem voteOS_db_cases (db : List Poll) (pid : String) (idx : JSNum) (ip : String)
    (ok : Bool) :
    (voteOneShot db pid idx ip ok).db = db ∨
    ∃ poll newOpts, findPoll db pid = some poll ∧ bumpAt poll.options idx = some newOpts ∧
      poll.votedIPs.contains ip = false ∧
      (voteOneShot db pid idx ip ok).db = savePoll db (updatedPollOS poll newOpts ip) := by
  unfold voteOneShot voteOSApply
  cases hf : findPoll db pid with
  | none => left; rfl
  | some poll =>
    dsimp only
    split
    · left; rfl
    · split
      · left; rfl
      · rename_i hrange hcont
        cases hb : bumpAt poll.options idx with
        | none => left; rfl
        | some newOpts =>
          dsimp only
          split
          · right
            exact ⟨poll, newOpts, rfl, hb, by simpa using hcont, rfl⟩
          · left; rfl

theorem voteRL_db_cases (st : RLState) (pid : String) (idx : JSNum) (ip : String)
    (now : Nat) (ok : Bool) :
    (voteRateLimited st pid idx ip now ok).state.db = st.db ∨
    ∃ poll newOpts, findPoll st.db pid = some poll ∧ bumpAt poll.options idx = some newOpts ∧
      (voteRateLimited st pid idx ip now ok).state.db
        = savePoll st.db (updatedPollRL poll newOpts) := by
  unfold voteRateLimited voteRLGuard voteRLApply
  cases hf : findPoll st.db pid with
  | none => left; rfl
  | some poll =>
    dsimp only
    split
    · left; rfl
    · split
      all_goals
        split
        · left; rfl
        · cases hb : bumpAt poll.options idx with
          | none => left; rfl
          | some newOpts =>
            dsimp only
            split
            · right
              exact ⟨poll, newOpts, rfl, hb, rfl⟩
            · left; rfl

/-! ### The core tally invariant (claims about reachable stores) -/

theorem storeInv_savePoll {db : List Poll} {q : Poll} (hdb : storeInv db)
    (hq : q.totalVotes = sumVotes q.options) : storeInv (savePoll db q) := by
  intro p hp
  rcases mem_savePoll hp with h | h
  · rw [h]; exact hq
  · exact hdb p h

theorem storeInv_append {db : List Poll} {q : Poll} (hdb : storeInv db)
    (hq : q.totalVotes = sumVotes q.options) : storeInv (db ++ [q]) := by
  intro p hp
  rcases List.mem_append.mp hp with h | h
  · exact hdb p h
  · rw [List.mem_singleton.mp h]; exact hq

theorem storeInv_createPoll {db : List Poll} (q : String) (opts : List String)
    (pid : String) (ok : Bool) (hdb : storeInv db) :
    storeInv (createPoll db q opts pid ok).1 := by
  rcases createPoll_db_cases db q opts pid ok with h | h
  · rwa [h]
  · rw [h]
    exact storeInv_append hdb (by simpa using (sumVotes_map_zero opts).symm)

theorem storeInv_voteOS {db : List Poll} (pid : String) (idx : JSNum) (ip : String)
    (ok : Bool) (hdb : storeInv db) : storeInv (voteOneShot db pid idx ip ok).db := by
  rcases voteOS_db_cases db pid idx ip ok with h | ⟨poll, newOpts, hf, hb, _, h⟩
  · rwa [h]
  · rw [h]
    refine storeInv_savePoll hdb ?_
    have hs := bumpAt_some hb
    have hpoll := hdb poll (findPoll_mem hf)
    show poll.totalVotes + 1 = sumVotes newOpts
    omega

theorem storeInv_voteRL (st : RLState) (pid : String) (idx : JSNum) (ip : String)
    (now : Nat) (ok : Bool) (hdb : storeInv st.db) :
    storeInv (voteRateLimited st pid idx ip now ok).state.db := by
  rcases voteRL_db_cases st pid idx ip now ok with h | ⟨poll, newOpts, hf, hb, h⟩
  · rwa [h]
  · rw [h]
    refine storeInv_savePoll hdb ?_
    have hs := bumpAt_some hb
    have hpoll := hdb poll (findPoll_mem hf)
    show poll.totalVotes + 1 = sumVotes newOpts
    omega

theorem storeInv_stepOS (db : List Poll) (op : Op) (hdb : storeInv db) :
    storeInv (stepOS db op) := by
  cases op with
  | create q opts pid ok => exact storeInv_createPoll q opts pid ok hdb
  | vote pid idx ip now ok => exact storeInv_voteOS pid idx ip ok hdb

theorem storeInv_stepRL (st : RLState) (op : Op) (hdb : storeInv st.db) :
    storeInv (stepRL st op).db := by
  cases op with
  | create q opts pid ok => exact storeInv_createPoll q opts pid ok hdb
  | vote pid idx ip now ok => exact storeInv_voteRL st pid idx ip now ok hdb

/-- C1: for every poll reachable from creation through any sequence of
create-poll and vote operations (in either variant of the vote route),
the poll's totalVotes field equals the sum of the votes fields of its
options: creation establishes the invariant with all counters 0 and
every admitted vote increments the chosen option's counter and the
total by exactly 1. -/
theorem c1_totalVotes_eq_sumVotes (ops : List Op) :
    (∀ p ∈ (runRL ops).db, p.totalVotes = sumVotes p.options) ∧
    (∀ p ∈ runOS ops, p.totalVotes = sumVotes p.options) := by
  constructor
  · exact foldl_pres (fun st => storeInv st.db) stepRL
      (fun s op h => storeInv_stepRL s op h) ops ⟨[], []⟩ (fun p hp => by cases hp)
  · exact foldl_pres storeInv stepOS
      (fun s op h => storeInv_stepOS s op h) ops [] (fun p hp => by cases hp)

theorem c1_witness :
    (⟨"p1", "q", [⟨"A", 1⟩, ⟨"B", 0⟩], [], 1⟩ : Poll).totalVotes
      = sumVotes (⟨"p1", "q", [⟨"A", 1⟩, ⟨"B", 0⟩], [], 1⟩ : Poll).options :=
  (c1_totalVotes_eq_sumVotes
      [.create "q" ["A", "B"] "p1" true, .vote "p1" (.num 0) "ip" 5 true]).1
    ⟨"p1", "q", [⟨"A", 1⟩, ⟨"B", 0⟩], [], 1⟩ (by decide)

/-! ### The one-shot votedIPs invariant -/

theorem osInv_stepOS (db : List Poll) (op : Op) (hdb : osInv db) :
    osInv (stepOS db op) := by
  cases op with
  | create q opts pid ok =>
    rcases createPoll_db_cases db q opts pid ok with h | h
    · show osInv (createPoll db q opts pid ok).1
      rwa [h]
    · show osInv (createPoll db q opts pid ok).1
      rw [h]
      intro p hp
      rcases List.mem_append.mp hp with h1 | h1
      · exact hdb p h1
      · rw [List.mem_singleton.mp h1]
        exact ⟨rfl, List.nodup_nil⟩
  | vote pid idx ip now ok =>
    rcases voteOS_db_cases db pid idx ip ok with h | ⟨poll, newOpts, hf, hb, hcont, h⟩
    · show osInv (voteOneShot db pid idx ip ok).db
      rwa [h]
    · show osInv (voteOneShot db pid idx ip ok).db
      rw [h]
      intro p hp
      rcases mem_savePoll hp with h1 | h1
      · rw [h1]
        have hpoll := hdb poll (findPoll_mem hf)
        have hnotmem : ip ∉ poll.votedIPs := by simpa using hcont
        refine ⟨?_, ?_⟩
        · show (poll.votedIPs ++ [ip]).length = poll.totalVotes + 1
          simp [hpoll.1]
        · show (poll.votedIPs ++ [ip]).Nodup
          simp [List.nodup_append, hpoll.2, hnotmem]
      · exact hdb p h1

/-- C10: in the one-shot variant, every reachable stored poll has its
votedIPs list of length exactly totalVotes and free of duplicate
identities: each admitted vote appends one new identity and increments
the total by one, and an identity already present is rejected before
any mutation. -/
theorem c10_votedIPs_invariant (ops : List Op) :
    ∀ p ∈ runOS ops, p.votedIPs.length = p.totalVotes ∧ p.votedIPs.Nodup :=
  foldl_pres osInv stepOS (fun s op h => osInv_stepOS s op h) ops [] (fun p hp => by cases hp)

theorem c10_witness :
    (⟨"p1", "q", [⟨"A", 1⟩, ⟨"B", 0⟩], ["ip"], 1⟩ : Poll).votedIPs.length
        = (⟨"p1", "q", [⟨"A", 1⟩, ⟨"B", 0⟩], ["ip"], 1⟩ : Poll).totalVotes ∧
      (⟨"p1", "q", [⟨"A", 1⟩, ⟨"B", 0⟩], ["ip"], 1⟩ : Poll).votedIPs.Nodup :=
  c10_votedIPs_invariant
      [.create "q" ["A", "B"] "p1" true, .vote "p1" (.num 0) "ip" 5 true]
    ⟨"p1", "q", [⟨"A", 1⟩, ⟨"B", 0⟩], ["ip"], 1⟩ (by decide)


/-! ### Invalid and malformed option indices -/

/-- C6: for every existing poll and every integer optionIndex outside
the valid range (below 0 or at least the option count), both vote
variants fail with the invalid-option error (HTTP 400) and leave the
store and the rate-limit state unchanged. -/
theorem c6_out_of_range_rejected (db : List Poll) (ts : TsMap) (pid ip : String)
    (now : Nat) (ok : Bool) (n : Int) (poll : Poll)
    (hfind : findPoll db pid = some poll)
    (hout : n < 0 ∨ (poll.options.length : Int) ≤ n) :
    (voteRateLimited ⟨db, ts⟩ pid (.num n) ip now ok).result = .invalidOption ∧
    (voteRateLimited ⟨db, ts⟩ pid (.num n) ip now ok).state = ⟨db, ts⟩ ∧
    (voteOneShot db pid (.num n) ip ok).result = .invalidOption ∧
    (voteOneShot db pid (.num n) ip ok).db = db ∧
    httpStatus .invalidOption = 400 := by
  have hc : (jsLt (.num n) 0 || jsGe (.num n) (poll.options.length : Int)) = true := by
    simp only [jsLt, jsGe, Bool.or_eq_true, decide_eq_true_eq]
    omega
  unfold voteRateLimited voteOneShot
  dsimp only
  rw [hfind]
  simp [hc, httpStatus]

theorem c6_witness :
    (voteRateLimited ⟨[pollAB], []⟩ "p1" (.num (-1)) "ip" 7 true).result = .invalidOption ∧
    (voteRateLimited ⟨[pollAB], []⟩ "p1" (.num (-1)) "ip" 7 true).state = ⟨[pollAB], []⟩ ∧
    (voteOneShot [pollAB] "p1" (.num (-1)) "ip" true).result = .invalidOption ∧
    (voteOneShot [pollAB] "p1" (.num (-1)) "ip" true).db = [pollAB] ∧
    httpStatus .invalidOption = 400 :=
  c6_out_of_range_rejected [pollAB] [] "p1" "ip" 7 true (-1) pollAB (by decide)
    (by decide)

/-- C7 counterexample: on an existing poll, a vote whose optionIndex is
missing (undefined) is not answered 400: the range check passes (both
JS comparisons with undefined are false) and the handler throws while
indexing the options array, so the catch block answers 500. -/
theorem c7_counterexample :
    (voteRateLimited ⟨[pollAB], []⟩ "p1" .undefined "ip" 1000 true).result = .serverError ∧
    httpStatus (voteRateLimited ⟨[pollAB], []⟩ "p1" .undefined "ip" 1000 true).result = 500 ∧
    httpStatus (voteRateLimited ⟨[pollAB], []⟩ "p1" .undefined "ip" 1000 true).result ≠ 400 := by
  decide

/-- C7 amended: a vote on an existing poll whose optionIndex is missing
or undefined passes the range check and fails with the generic
server error surfaced as HTTP 500 (not 400), provided the abuse guard
admits the caller (otherwise the guard's 429 or 403 answer comes
first); the store is unchanged. -/
theorem c7_malformed_index_500 (db : List Poll) (ts : TsMap) (pid ip : String)
    (now : Nat) (ok : Bool) (poll : Poll)
    (hfind : findPoll db pid = some poll)
    (hguard : rlReject (alookup ((alookup ts pid).getD []) ip) now = false)
    (hos : poll.votedIPs.contains ip = false) :
    (voteRateLimited ⟨db, ts⟩ pid .undefined ip now ok).result = .serverError ∧
    (voteRateLimited ⟨db, ts⟩ pid .undefined ip now ok).state.db = db ∧
    (voteOneShot db pid .undefined ip ok).result = .serverError ∧
    (voteOneShot db pid .undefined ip ok).db = db ∧
    httpStatus .serverError = 500 := by
  have hens := alookup_ensure ts pid
  have hosmem : ip ∉ poll.votedIPs := by simpa using hos
  unfold voteRateLimited voteRLGuard voteRLApply voteOneShot voteOSApply
  dsimp only
  rw [hfind]
  simp [jsLt, jsGe, bumpAt, hens, hguard, hosmem, httpStatus]

theorem c7_witness :
    (voteRateLimited ⟨[pollAB], []⟩ "p1" .undefined "ip" 1000 false).result = .serverError ∧
    (voteRateLimited ⟨[pollAB], []⟩ "p1" .undefined "ip" 1000 false).state.db = [pollAB] ∧
    (voteOneShot [pollAB] "p1" .undefined "ip" false).result = .serverError ∧
    (voteOneShot [pollAB] "p1" .undefined "ip" false).db = [pollAB] ∧
    httpStatus .serverError = 500 :=
  c7_malformed_index_500 [pollAB] [] "p1" "ip" 1000 false pollAB (by decide) (by decide)
    (by decide)

/-! ### No broadcast and no visible mutation on failure -/

/-- C8: in both vote variants, every failed vote (poll not found,
invalid option, abuse rejection, thrown error or failed save) emits no
broadcast and leaves the stored polls unchanged; conversely a broadcast
is emitted only when the vote succeeded, which requires the save to
have succeeded. -/
theorem c8_failure_frame (db : List Poll) (ts : TsMap) (pid : String) (idx : JSNum)
    (ip : String) (now : Nat) (ok : Bool) :
    ((voteRateLimited ⟨db, ts⟩ pid idx ip now ok).result.isSuccess = false →
      (voteRateLimited ⟨db, ts⟩ pid idx ip now ok).broadcast = none ∧
      (voteRateLimited ⟨db, ts⟩ pid idx ip now ok).state.db = db) ∧
    ((voteRateLimited ⟨db, ts⟩ pid idx ip now ok).broadcast.isSome = true →
      (voteRateLimited ⟨db, ts⟩ pid idx ip now ok).result.isSuccess = true ∧ ok = true) ∧
    ((voteOneShot db pid idx ip ok).result.isSuccess = false →
      (voteOneShot db pid idx ip ok).broadcast = none ∧
      (voteOneShot db pid idx ip ok).db = db) ∧
    ((voteOneShot db pid idx ip ok).broadcast.isSome = true →
      (voteOneShot db pid idx ip ok).result.isSuccess = true ∧ ok = true) := by
  unfold voteRateLimited voteRLGuard voteRLApply voteOneShot voteOSApply
  cases hf : findPoll db pid with
  | none => simp [VoteResult.isSuccess]
  | some poll =>
    dsimp only
    repeat' split
    all_goals simp_all [VoteResult.isSuccess]

theorem c8_witness :
    (voteRateLimited ⟨[], []⟩ "p1" (.num 0) "ip" 3 true).broadcast = none ∧
    (voteRateLimited ⟨[], []⟩ "p1" (.num 0) "ip" 3 true).state.db = [] :=
  (c8_failure_frame [] [] "p1" (.num 0) "ip" 3 true).1 (by decide)

/-! ### The rate-limit check -/

/-- C5 counterexample: the route's truthiness test
`lastVoteTime && ...` treats a stored timestamp of 0 as absent, so on a
reachable state in which identity "ip" has an admitted vote recorded at
time 0, a second vote at time 1 is admitted even though now minus last
is far below the window, where the claim requires a rejection. -/
theorem c5_counterexample :
    alookup ((alookup (runRL [.create "q" ["A", "B"] "p1" true,
        .vote "p1" (.num 0) "ip" 0 true]).ts "p1").getD []) "ip" = some 0 ∧
    ((1 : Int) - 0 < RATE_LIMIT_WINDOW) ∧
    (voteRateLimited (runRL [.create "q" ["A", "B"] "p1" true,
        .vote "p1" (.num 0) "ip" 0 true]) "p1" (.num 0) "ip" 1 true).result
      = .success [⟨"A", 2⟩, ⟨"B", 0⟩] 2 := by
  decide

/-- C5 amended: on an existing poll and a valid option index, the
rate-limit guard rejects exactly when a record with a truthy (nonzero)
timestamp `t` exists for the (poll, identity) pair and now minus t is
below the window; the 429 answer then carries the ceiling of
(window minus elapsed) in seconds, which is strictly positive, and the
store is unchanged.  When no record exists (including a poll unknown to
the guard map), when the stored timestamp is 0 (falsy in JS), or when
the window has elapsed, the vote is admitted. -/
theorem c5_rate_limit_check (db : List Poll) (ts : TsMap) (pid ip : String)
    (now : Nat) (n : Int) (poll : Poll) (last : Option Nat)
    (hfind : findPoll db pid = some poll)
    (hn : 0 ≤ n ∧ n < (poll.options.length : Int))
    (hlast : last = alookup ((alookup ts pid).getD []) ip) :
    (∀ t, last = some t → t ≠ 0 → (now : Int) - t < RATE_LIMIT_WINDOW →
      (voteRateLimited ⟨db, ts⟩ pid (.num n) ip now true).result
          = .rateLimited (ceilDiv1000 (RATE_LIMIT_WINDOW - ((now : Int) - t))) ∧
      0 < ceilDiv1000 (RATE_LIMIT_WINDOW - ((now : Int) - t)) ∧
      (voteRateLimited ⟨db, ts⟩ pid (.num n) ip now true).state.db = db) ∧
    ((last = none ∨ ∃ t, last = some t ∧ (t = 0 ∨ RATE_LIMIT_WINDOW ≤ (now : Int) - t)) →
      (voteRateLimited ⟨db, ts⟩ pid (.num n) ip now true).result
          = .success (bumpVotes poll.options n.toNat) (poll.totalVotes + 1)) := by
  have hens := alookup_ensure ts pid
  have hc : (jsLt (.num n) 0 || jsGe (.num n) (poll.options.length : Int)) = false := by
    simp only [jsLt, jsGe, Bool.or_eq_false_iff, decide_eq_false_iff_not]
    omega
  have hcond : 0 ≤ n ∧ n.toNat < poll.options.length := ⟨hn.1, by omega⟩
  have hbump : bumpAt poll.options (.num n) = some (bumpVotes poll.options n.toNat) := by
    simp [bumpAt, hcond]
  constructor
  · intro t hsome ht0 hlt
    have hrej : rlReject (alookup ((alookup ts pid).getD []) ip) now = true := by
      rw [← hlast, hsome]
      simp [rlReject, ht0, hlt]
    refine ⟨?_, ceilDiv1000_pos _ (by omega), ?_⟩ <;>
      (unfold voteRateLimited voteRLGuard
       dsimp only
       rw [hfind]
       dsimp only
       rw [hens, hrej]
       rw [← hlast, hsome]
       simp [hc, remainingSecs])
  · intro h
    have hrej : rlReject (alookup ((alookup ts pid).getD []) ip) now = false := by
      rw [← hlast]
      rcases h with h | ⟨t, hsome, h⟩
      · rw [h]; rfl
      · rw [hsome]
        rcases h with h | h
        · simp [rlReject, h]
        · simp only [rlReject, Bool.and_eq_false_iff, decide_eq_false_iff_not]
          right
          omega
    unfold voteRateLimited voteRLGuard voteRLApply
    dsimp only
    rw [hfind]
    dsimp only
    rw [hens, hrej, hbump]
    simp [hc]

theorem c5_witness :
    (voteRateLimited ⟨[pollAB], [("p1", [("ip", 1000)])]⟩ "p1" (.num 0) "ip" 1005 true).result
        = .rateLimited 60 ∧
    (0 : Int) < 60 ∧
    (voteRateLimited ⟨[pollAB], [("p1", [("ip", 1000)])]⟩ "p1" (.num 0) "ip" 1005 true).state.db
        = [pollAB] := by
  have h := (c5_rate_limit_check [pollAB] [("p1", [("ip", 1000)])] "p1" "ip" 1005 0 pollAB
      (some 1000) (by decide) (by decide) (by decide)).1 1000 rfl (by decide) (by decide)
  refine ⟨?_, by norm_num, h.2.2⟩
  rw [h.1]
  decide

/-! ### Garbage collection of expired rate-limit entries -/

/-- C9: deleting a (poll, identity) entry whose timestamp is more than
twice the window older than the current time (exactly what the sweep
removes) does not change the guard's check decision for any query at or
after the current time: the expired entry behaves like an absent one. -/
theorem c9_gc_removal_safe (ts : TsMap) (pid ip : String) (t now0 now : Nat)
    (hget : alookup ((alookup ts pid).getD []) ip = some t)
    (hold : RATE_LIMIT_WINDOW * 2 < (now0 : Int) - t)
    (hfut : now0 ≤ now) :
    ∀ pid' ip', guardCheck (deleteEntry ts pid ip) pid' ip' now
      = guardCheck ts pid' ip' now := by
  intro pid' ip'
  unfold guardCheck
  rw [alookup_deleteEntry]
  by_cases hp : pid' = pid
  · rw [if_pos hp, hp]
    obtain ⟨m, hm⟩ : ∃ m, alookup ts pid = some m := by
      cases h : alookup ts pid with
      | none => rw [h] at hget; simp [alookup] at hget
      | some m => exact ⟨m, rfl⟩
    rw [hm] at hget ⊢
    dsimp only [Option.map_some', Option.getD_some] at hget ⊢
    rw [alookup_adelete]
    by_cases hip : ip' = ip
    · rw [if_pos hip, hip, hget]
      have hWpos : (0 : Int) < RATE_LIMIT_WINDOW := by norm_num [RATE_LIMIT_WINDOW]
      have hw : ¬((now : Int) - t < RATE_LIMIT_WINDOW) := by omega
      simp [rlReject, hw]
    · rw [if_neg hip]
  · rw [if_neg hp]

theorem c9_witness :
    guardCheck (deleteEntry [("p1", [("ip", 5)])] "p1" "ip") "p1" "ip" 120006
      = guardCheck [("p1", [("ip", 5)])] "p1" "ip" 120006 :=
  c9_gc_removal_safe [("p1", [("ip", 5)])] "p1" "ip" 5 120006 120006
    (by decide) (by decide) (by decide) "p1" "ip"

/-! ### Ordering of guard record and store write (rate-limited variant) -/

/-- C3: in the rate-limited variant the timestamp record is written
before `poll.save()` runs, so a vote whose save fails is answered 500
with the store unchanged, yet the abuse record for the (poll, identity)
pair has been created, and a retry by the same identity 5 ms later is
rejected 429 with a 60 second retry hint — the voter is blocked by an
attempt that never counted, contradicting the claimed ordering. -/
theorem c3_record_written_on_failed_save :
    (voteRateLimited ⟨[pollAB], []⟩ "p1" (.num 0) "ip" 1000 false).result = .serverError ∧
    (voteRateLimited ⟨[pollAB], []⟩ "p1" (.num 0) "ip" 1000 false).state.db = [pollAB] ∧
    (voteRateLimited ⟨[pollAB], []⟩ "p1" (.num 0) "ip" 1000 false).state.ts
        = [("p1", [("ip", 1000)])] ∧
    (voteRateLimited (voteRateLimited ⟨[pollAB], []⟩ "p1" (.num 0) "ip" 1000 false).state
        "p1" (.num 0) "ip" 1005 true).result = .rateLimited 60 := by
  decide

/-! ### Concurrent votes on the same poll -/

/-- C2: the vote route performs `findOne`, an in-memory increment and
`save`, with an await point between the read and the write; under the
interleaving in which both handlers read before either writes, one of
two concurrent votes for option 0 is lost: from counts 0 the stored
poll ends with option-0 count 1 and total 1, not 2. -/
theorem c2_lost_update :
    findPoll (twoInterleavedVotes [pollAB] "p1" 0 0) "p1"
        = some ⟨"p1", "q", [⟨"A", 1⟩, ⟨"B", 0⟩], [], 1⟩ := by
  decide

/-! ### One-shot duplicate blocking across a whole run -/

theorem voteOS_success_cases (db : List Poll) (pid : String) (idx : JSNum)
    (ip : String) (ok : Bool)
    (h : (voteOneShot db pid idx ip ok).result.isSuccess = true) :
    ∃ poll newOpts, findPoll db pid = some poll ∧ bumpAt poll.options idx = some newOpts ∧
      poll.votedIPs.contains ip = false ∧ ok = true ∧
      (voteOneShot db pid idx ip ok).db = savePoll db (updatedPollOS poll newOpts ip) := by
  unfold voteOneShot voteOSApply at h ⊢
  cases hf : findPoll db pid with
  | none => rw [hf] at h; simp [VoteResult.isSuccess] at h
  | some poll =>
    rw [hf] at h
    dsimp only at h ⊢
    by_cases hrange : (jsLt idx 0 || jsGe idx (poll.options.length : Int)) = true
    · rw [if_pos hrange] at h; simp [VoteResult.isSuccess] at h
    · rw [if_neg hrange] at h
      rw [if_neg hrange]
      by_cases hcont : poll.votedIPs.contains ip = true
      · rw [if_pos hcont] at h; simp [VoteResult.isSuccess] at h
      · rw [if_neg hcont] at h
        rw [if_neg hcont]
        cases hb : bumpAt poll.options idx with
        | none => rw [hb] at h; simp [VoteResult.isSuccess] at h
        | some newOpts =>
          rw [hb] at h
          dsimp only at h ⊢
          by_cases hok : ok = true
          · rw [if_pos hok]
            exact ⟨poll, newOpts, rfl, hb, by simpa using hcont, hok, rfl⟩
          · rw [if_neg hok] at h; simp [VoteResult.isSuccess] at h

theorem votedIn_voteOS_success (db : List Poll) (pid : String) (idx : JSNum)
    (ip : String) (ok : Bool)
    (h : (voteOneShot db pid idx ip ok).result.isSuccess = true) :
    votedIn (voteOneShot db pid idx ip ok).db pid ip := by
  obtain ⟨poll, newOpts, hf, hb, hc, hok, hdb⟩ := voteOS_success_cases db pid idx ip ok h
  rw [hdb]
  have hfs := findPoll_savePoll (updatedPollOS poll newOpts ip) hf
  have hpid : (updatedPollOS poll newOpts ip).pollId = pid := by
    show poll.pollId = pid
    exact findPoll_pollId hf
  rw [if_pos hpid] at hfs
  exact ⟨_, hfs, by simp [updatedPollOS]⟩

theorem votedIn_stepOS (db : List Poll) (op : Op) (pid ip : String)
    (h : votedIn db pid ip) : votedIn (stepOS db op) pid ip := by
  obtain ⟨p, hf, hip⟩ := h
  cases op with
  | create q opts pid' ok =>
    show votedIn (createPoll db q opts pid' ok).1 pid ip
    rcases createPoll_db_cases db q opts pid' ok with h1 | h1
    · rw [h1]; exact ⟨p, hf, hip⟩
    · rw [h1]; exact ⟨p, findPoll_append _ hf, hip⟩
  | vote pid' idx ip' now ok =>
    show votedIn (voteOneShot db pid' idx ip' ok).db pid ip
    rcases voteOS_db_cases db pid' idx ip' ok with h1 | ⟨poll, newOpts, hf', hb, hc, h1⟩
    · rw [h1]; exact ⟨p, hf, hip⟩
    · rw [h1]
      have hfs := findPoll_savePoll (updatedPollOS poll newOpts ip') hf
      by_cases hq : (updatedPollOS poll newOpts ip').pollId = pid
      · rw [if_pos hq] at hfs
        have hpid' : poll.pollId = pid' := findPoll_pollId hf'
        have hpids : pid' = pid := by
          have hup : (updatedPollOS poll newOpts ip').pollId = poll.pollId := rfl
          rw [hup, hpid'] at hq
          exact hq
        have hpp : p = poll := by
          rw [hpids] at hf'
          rw [hf] at hf'
          exact Option.some_inj.mp hf'
        refine ⟨_, hfs, ?_⟩
        have hip2 : ip ∈ poll.votedIPs := hpp ▸ hip
        simp only [updatedPollOS, List.mem_append]
        exact Or.inl hip2
      · rw [if_neg hq] at hfs
        exact ⟨p, hfs, hip⟩

theorem voteOS_rejects_votedIn (db : List Poll) (pid ip : String) (idx : JSNum)
    (ok : Bool) (p : Poll) (hf : findPoll db pid = some p) (hip : ip ∈ p.votedIPs) :
    (voteOneShot db pid idx ip ok).db = db ∧
    (voteOneShot db pid idx ip ok).result.isSuccess = false ∧
    ((voteOneShot db pid idx ip ok).result = .invalidOption ∨
      (voteOneShot db pid idx ip ok).result = .alreadyVoted) ∧
    ((jsLt idx 0 || jsGe idx (p.options.length : Int)) = false →
      (voteOneShot db pid idx ip ok).result = .alreadyVoted) := by
  unfold voteOneShot
  rw [hf]
  dsimp only
  by_cases hr : (jsLt idx 0 || jsGe idx (p.options.length : Int)) = true
  · simp [hr, VoteResult.isSuccess]
  · have hr' : (jsLt idx 0 || jsGe idx (p.options.length : Int)) = false := by
      simpa using hr
    simp [hr', hip, VoteResult.isSuccess]

/-- C4 counterexample: after identity ipX has one admitted vote on poll
p1, a subsequent vote by ipX on p1 with optionIndex -1 is rejected with
the invalid-option error (HTTP 400), not the already-voted error
(HTTP 403), because the range check precedes the duplicate check. -/
theorem c4_counterexample :
    (voteOneShot (runOS [.create "q" ["A", "B"] "p1" true])
        "p1" (.num 0) "ipX" true).result.isSuccess = true ∧
    (voteOneShot (voteOneShot (runOS [.create "q" ["A", "B"] "p1" true])
        "p1" (.num 0) "ipX" true).db "p1" (.num (-1)) "ipX" true).result
      = .invalidOption ∧
    httpStatus (voteOneShot (voteOneShot (runOS [.create "q" ["A", "B"] "p1" true])
        "p1" (.num 0) "ipX" true).db "p1" (.num (-1)) "ipX" true).result = 400 := by
  decide

/-- C4 amended: in one-shot mode, after one admitted vote by an
identity on a poll, every subsequent vote by the same identity on the
same poll - at any later point of the run - is not admitted and leaves
the store unchanged; it is rejected with the already-voted error
(HTTP 403) whenever its option index passes the range check, and with
the invalid-option error (HTTP 400) otherwise.  In particular the
identity can never cause two admitted votes on the same poll. -/
theorem c4_one_shot_no_second_vote (ops rest : List Op) (pid ip : String)
    (idx idx' : JSNum) (ok ok' : Bool) (db2 : List Poll)
    (hfirst : (voteOneShot (runOS ops) pid idx ip ok).result.isSuccess = true)
    (hdb2 : db2 = rest.foldl stepOS (voteOneShot (runOS ops) pid idx ip ok).db) :
    (voteOneShot db2 pid idx' ip ok').db = db2 ∧
    (voteOneShot db2 pid idx' ip ok').result.isSuccess = false ∧
    ((voteOneShot db2 pid idx' ip ok').result = .invalidOption ∨
      (voteOneShot db2 pid idx' ip ok').result = .alreadyVoted) ∧
    ∃ p2, findPoll db2 pid = some p2 ∧
      ((jsLt idx' 0 || jsGe idx' (p2.options.length : Int)) = false →
        (voteOneShot db2 pid idx' ip ok').result = .alreadyVoted) := by
  have h1 : votedIn (voteOneShot (runOS ops) pid idx ip ok).db pid ip :=
    votedIn_voteOS_success (runOS ops) pid idx ip ok hfirst
  have h2 : votedIn db2 pid ip := by
    rw [hdb2]
    exact foldl_pres (fun db => votedIn db pid ip) stepOS
      (fun s op h => votedIn_stepOS s op pid ip h) rest _ h1
  obtain ⟨p2, hf2, hip2⟩ := h2
  have h3 := voteOS_rejects_votedIn db2 pid ip idx' ok' p2 hf2 hip2
  exact ⟨h3.1, h3.2.1, h3.2.2.1, p2, hf2, h3.2.2.2⟩

theorem c4_witness :
    (voteOneShot (([] : List Op).foldl stepOS
        (voteOneShot (runOS [.create "q" ["A", "B"] "p1" true])
          "p1" (.num 0) "ipX" true).db)
      "p1" (.num 1) "ipX" true).result.isSuccess = false :=
  (c4_one_shot_no_second_vote [.create "q" ["A", "B"] "p1" true] [] "p1" "ipX"
      (.num 0) (.num 1) true true
      (([] : List Op).foldl stepOS
        (voteOneShot (runOS [.create "q" ["A", "B"] "p1" true])
          "p1" (.num 0) "ipX" true).db)
      (by decide) rfl).2.1
